import Mathlib

/-!
# TeamBot: a shallow embedding of the team-assignment engine of `src/bot.py`

The Python program keeps a module-level dictionary
`teams : Dict[int, dict]` mapping a team number to a record
`{'members': list, 'role', 'coach_role', 'text', 'voice'}`, plus a shared
category handle.  We embed the registry as an association list that keeps
Python's dict insertion order, user/role/channel identifiers as naturals,
and each operation of the bot as a pure function on that state.
-/

namespace TeamBot

abbrev UserId := Nat
abbrev TeamId := Nat

/-- The resource bundle handed to a new team: the four platform handles
(`role_id`, `coach_role_id`, `text_channel_id`, `voice_channel_id`),
modelled by their numeric identifiers. -/
structure Bundle where
  role : Nat
  coach_role : Nat
  text : Nat
  voice : Nat
deriving DecidableEq, Repr

/-- One value of the `teams` dictionary: the roster (`'members'`, a Python
list of user ids in insertion order) and the four resource handles. -/
structure Team where
  members : List UserId
  role : Nat
  coach_role : Nat
  text : Nat
  voice : Nat
deriving DecidableEq, Repr

/-- The `teams : Dict[int, dict]` global, embedded as an association list in
dict insertion order (Python dicts preserve insertion order and have unique
keys). -/
abbrev Registry := List (TeamId × Team)

/-- The key view of the dictionary, `teams.keys()`, in insertion order. -/
def keys (ts : Registry) : List TeamId := ts.map Prod.fst

/-- Python dict assignment `teams[k] = tm`: replaces in place if the key is
present (keeping its position), otherwise appends at the end. -/
def insertReplace (ts : Registry) (k : TeamId) (tm : Team) : Registry :=
  if k ∈ keys ts then ts.map (fun p => if p.1 = k then (k, tm) else p)
  else ts ++ [(k, tm)]

/-- In-place mutation of one team's record, e.g.
`teams[k]['members'].append(u)`: rewrites the entry whose key is `k`. -/
def modifyTeam (ts : Registry) (k : TeamId) (f : Team → Team) : Registry :=
  ts.map (fun p => if p.1 = k then (k, f p.2) else p)

/-- `bot.py` lines 174-181 and 399-403: scan `teams.items()` in insertion
order and return the first team whose `'members'` list contains the user. -/
def findUserTeam (ts : Registry) (u : UserId) : Option TeamId :=
  (ts.find? (fun p => decide (u ∈ p.2.members))).map Prod.fst

/-- `len(teams[k]['members'])` — dictionary lookup of the roster length
(`0` if the key is absent, which the bot never does). -/
def rosterLen (ts : Registry) (k : TeamId) : Nat :=
  match List.lookup k ts with
  | some tm => tm.members.length
  | none => 0

/-- `sorted(teams.keys())` — the key list in ascending order. -/
def sortedKeys (ts : Registry) : List TeamId :=
  List.insertionSort (fun a b => a ≤ b) (keys ts)

/-- `bot.py` lines 184-188: iterate `sorted(teams.keys())` and return the
first team number whose roster length is strictly below `TEAM_SIZE`. -/
def findTeamWithCapacity (ts : Registry) (sz : Nat) : Option TeamId :=
  (sortedKeys ts).find? (fun k => decide (rosterLen ts k < sz))

/-- The empty team record `create_team` registers at its step 6:
`{'members': [], 'role': …, 'coach_role': …, 'text': …, 'voice': …}`. -/
def emptyTeam (b : Bundle) : Team :=
  { members := [], role := b.role, coach_role := b.coach_role,
    text := b.text, voice := b.voice }

/-- `bot.py` line 299 (`create_team`, step 6): `teams[team_number] = {...}` —
a plain dict assignment, with no check whether the key is already present. -/
def create_team_register (ts : Registry) (team_number : TeamId) (b : Bundle) : Registry :=
  insertReplace ts team_number (emptyTeam b)

/-- `teams[k]['members'].append(u)` (line 197). -/
def appendMember (tm : Team) (u : UserId) : Team :=
  { tm with members := tm.members ++ [u] }

/-- `teams[k]['members'].remove(u)` (line 412): Python `list.remove` deletes
the first occurrence, which is `List.erase`. -/
def removeMember (tm : Team) (u : UserId) : Team :=
  { tm with members := tm.members.erase u }

/-- The registry effect of one successful press of the Join button
(`JoinTeamView.join_team_button`, lines 167-217): reject a user already in
some team (no mutation), otherwise append to the lowest-numbered team with
spare capacity, otherwise create team `len(teams) + 1` with an empty roster
and append there.  `b` supplies the platform handles the provisioning calls
would return. -/
def join_team (ts : Registry) (sz : Nat) (u : UserId) (b : Bundle) : Registry :=
  match findUserTeam ts u with
  | some _ => ts
  | none =>
    match findTeamWithCapacity ts sz with
    | some t => modifyTeam ts t (fun tm => appendMember tm u)
    | none =>
      let newId := ts.length + 1
      modifyTeam (create_team_register ts newId b) newId (fun tm => appendMember tm u)

/-- The registry effect of `/leave_team` (lines 394-429).  Note the source
guard is `if not user_team:`, which in Python also treats team number `0` as
"not in a team", so a (never allocated) team 0 is left untouched. -/
def leave_team (ts : Registry) (u : UserId) : Registry :=
  match findUserTeam ts u with
  | none => ts
  | some t => if t = 0 then ts else modifyTeam ts t (fun tm => removeMember tm u)

/-- One externally triggered operation. -/
inductive Op where
  | join (u : UserId) (b : Bundle)
  | leave (u : UserId)

/-- Sequential (fully serialized) execution of one operation. -/
def step (sz : Nat) (ts : Registry) : Op → Registry
  | .join u b => join_team ts sz u b
  | .leave u => leave_team ts u

/-- Run a sequence of operations from the empty registry. -/
def run (sz : Nat) (ops : List Op) : Registry := ops.foldl (step sz) []

/-- Total number of occurrences of user `v` across all rosters. -/
def memCount (ts : Registry) (v : UserId) : Nat :=
  (ts.map (fun p => p.2.members.count v)).sum

/-- The registry invariant maintained by join/leave from the empty registry:
team numbers are exactly `1, …, n` in insertion order, every roster is
within capacity, and every user appears at most once across all rosters. -/
def Inv (sz : Nat) (ts : Registry) : Prop :=
  keys ts = List.range' 1 ts.length ∧
  (∀ p ∈ ts, p.2.members.length ≤ sz) ∧
  (∀ v : UserId, memCount ts v ≤ 1)

/-! ## Persistence: `save_teams_data` / `load_teams_data` -/

/-- One value of the persisted `teams` JSON object (lines 100-109): the
roster plus the four numeric resource identifiers. -/
structure SnapTeam where
  members : List UserId
  role_id : Nat
  coach_role_id : Nat
  text_channel_id : Nat
  voice_channel_id : Nat
deriving DecidableEq, Repr

/-- The snapshot file `teams_data.json`.  `json.dump` turns the integer team
keys into decimal strings; we model such a string by its base-10 digit list
(`Nat.digits`), which the loader converts back with `int(...)`, modelled by
`Nat.ofDigits`. -/
structure Snapshot where
  teams : List (List Nat × SnapTeam)
  category_id : Option Nat
deriving DecidableEq, Repr

/-- `save_teams_data` (lines 96-116): project every team to its roster and
the `.id` of each of its four resources, keyed by the decimal string of the
team number, plus the shared category id. -/
def save_teams_data (ts : Registry) (category : Option Nat) : Snapshot :=
  { teams := ts.map (fun p =>
      (Nat.digits 10 p.1,
       { members := p.2.members, role_id := p.2.role,
         coach_role_id := p.2.coach_role, text_channel_id := p.2.text,
         voice_channel_id := p.2.voice })),
    category_id := category }

/-- The team record `load_teams_data` rebuilds when all four handles resolve
(lines 143-150).  `guild.get_role(i)` / `guild.get_channel(i)` return the
live platform object whose `.id` is `i`, so the restored record carries the
same identifiers. -/
def restoreTeam (st : SnapTeam) : Team :=
  { members := st.members, role := st.role_id, coach_role := st.coach_role_id,
    text := st.text_channel_id, voice := st.voice_channel_id }

/-- The `all([role, coach_role, text_channel, voice_channel])` check of line
143: every one of the four handles must still resolve on the platform.
`roleLive` / `chanLive` model `guild.get_role` / `guild.get_channel`
returning a live object (`true`) or `None`. -/
def teamResolves (roleLive chanLive : Nat → Bool) (st : SnapTeam) : Bool :=
  roleLive st.role_id && roleLive st.coach_role_id &&
    chanLive st.text_channel_id && chanLive st.voice_channel_id

/-- The `for team_num_str, team_data in data.get('teams', {}).items()` loop
of `load_teams_data` (lines 135-153): walk the snapshot entries in file
order; parse each string key back with `int(...)`; register the team into
the accumulating dict only when all four of its handles resolve, otherwise
skip it (it is only logged). -/
def loadTeams (roleLive chanLive : Nat → Bool) (acc : Registry) :
    List (List Nat × SnapTeam) → Registry
  | [] => acc
  | kv :: rest =>
    if teamResolves roleLive chanLive kv.2
    then loadTeams roleLive chanLive
      (insertReplace acc (Nat.ofDigits 10 kv.1) (restoreTeam kv.2)) rest
    else loadTeams roleLive chanLive acc rest

/-- `load_teams_data` (lines 118-157) restricted to its effect on `teams`,
which starts out as the empty registry at process start. -/
def load_teams_data (s : Snapshot) (roleLive chanLive : Nat → Bool) : Registry :=
  loadTeams roleLive chanLive [] s.teams

/-! ## The join protocol with failing platform calls (for claim C3)

Every `await` of the join protocol can raise.  `join_team_button` catches any
exception (lines 219-227) and reports a generic error, keeping whatever had
already been mutated.  `fails` says which platform call raises; the calls
appear in the source order:
category (line 239), member role (244), coach role (251), text channel
(281), voice channel (290) — all before the registration at line 299 —
then the welcome message (line 320, after registration), and back in the
button handler the role assignment (line 199, after the roster append) and
the reply messages (lines 203/212). -/

inductive JoinCall where
  | ensureCategory
  | createMemberRole
  | createCoachRole
  | createTextChannel
  | createVoiceChannel
  | welcomeMessage
  | assignRole
  | replyMessage
deriving DecidableEq, Repr

inductive JoinOutcome where
  | alreadyMember (t : TeamId)
  | joined (t : TeamId)
  | errored
deriving DecidableEq, Repr

/-- `JoinTeamView.join_team_button` (lines 167-227) together with
`create_team` (lines 232-328), as a function from the registry to the new
registry and the user-visible outcome, with each awaited platform call
allowed to raise according to `fails`. -/
def join_team_button (ts : Registry) (sz : Nat) (u : UserId) (b : Bundle)
    (fails : JoinCall → Bool) : Registry × JoinOutcome :=
  match findUserTeam ts u with
  | some t => (ts, .alreadyMember t)
  | none =>
    match findTeamWithCapacity ts sz with
    | some t =>
      let ts1 := modifyTeam ts t (fun tm => appendMember tm u)
      if fails .assignRole then (ts1, .errored)
      else if fails .replyMessage then (ts1, .errored)
      else (ts1, .joined t)
    | none =>
      let newId := ts.length + 1
      if fails .ensureCategory then (ts, .errored)
      else if fails .createMemberRole then (ts, .errored)
      else if fails .createCoachRole then (ts, .errored)
      else if fails .createTextChannel then (ts, .errored)
      else if fails .createVoiceChannel then (ts, .errored)
      else
        let ts1 := create_team_register ts newId b
        if fails .welcomeMessage then (ts1, .errored)
        else
          let ts2 := modifyTeam ts1 newId (fun tm => appendMember tm u)
          if fails .assignRole then (ts2, .errored)
          else if fails .replyMessage then (ts2, .errored)
          else (ts2, .joined newId)

/-! ## Cooperative interleaving of Join-button coroutines (for claim C4)

The bot runs on a single asyncio event loop with no lock: a coroutine can
only be preempted at an `await`.  The decision part of the button handler
(duplicate check, capacity scan, choice of `assigned_team`, lines 174-192)
contains no `await`; for an existing team the roster append at line 197 also
happens before the next `await`, so that path is one atomic segment.  The
team-creation path suspends inside `create_team` (provisioning awaits,
before the registration of line 299) and again at the welcome message
(line 320, after registration and before the append at line 197). -/

inductive JoinPhase where
  | start
  | provisioned (newId : TeamId)
  | registered (newId : TeamId)
  | done (outcome : JoinOutcome)
deriving DecidableEq, Repr

structure JoinTask where
  user : UserId
  bundle : Bundle
  phase : JoinPhase
deriving DecidableEq, Repr

structure BotState where
  reg : Registry
  tasks : List JoinTask
deriving DecidableEq, Repr

/-- Resume coroutine `i` and run it up to its next suspension point
(or to completion), with every platform call succeeding. -/
def resumeTask (sz : Nat) (st : BotState) (i : Nat) : BotState :=
  match st.tasks[i]? with
  | none => st
  | some tk =>
    match tk.phase with
    | .done _ => st
    | .start =>
      match findUserTeam st.reg tk.user with
      | some t =>
          { st with tasks := st.tasks.set i { tk with phase := .done (.alreadyMember t) } }
      | none =>
        match findTeamWithCapacity st.reg sz with
        | some t =>
            { reg := modifyTeam st.reg t (fun tm => appendMember tm tk.user),
              tasks := st.tasks.set i { tk with phase := .done (.joined t) } }
        | none =>
            { st with
              tasks := st.tasks.set i { tk with phase := .provisioned (st.reg.length + 1) } }
    | .provisioned newId =>
        { reg := create_team_register st.reg newId tk.bundle,
          tasks := st.tasks.set i { tk with phase := .registered newId } }
    | .registered newId =>
        { reg := modifyTeam st.reg newId (fun tm => appendMember tm tk.user),
          tasks := st.tasks.set i { tk with phase := .done (.joined newId) } }

/-- Run the event loop under a given schedule (the list of which coroutine
is resumed at each scheduling point). -/
def runSchedule (sz : Nat) (st : BotState) (sched : List Nat) : BotState :=
  sched.foldl (resumeTask sz) st

/-! ## The provisioning call sequence of `create_team` (for claim C9) -/

/-- The configured category display name (line 28). -/
def CATEGORY_NAME : String := "My Team"

inductive RoleKind where
  | member
  | coach
deriving DecidableEq, Repr

/-- The `overwrites` dict of `create_team` step 3 (lines 260-277): the
permission grants name the two just-created roles. -/
structure Overwrites where
  member_role : Nat
  coach_role : Nat
deriving DecidableEq, Repr

/-- One platform call issued by `create_team`. -/
inductive ProvCall where
  | ensureCategory (name : String)
  | createRole (team : Nat) (kind : RoleKind)
  | createTextChannel (team : Nat) (category : Nat) (perms : Overwrites)
  | createVoiceChannel (team : Nat) (category : Nat) (perms : Overwrites)
deriving DecidableEq, Repr

/-- The straight-line sequence of platform calls `create_team`
(lines 236-295) performs when every call succeeds.  `catId`,
`memberRoleId` and `coachRoleId` are the handles the platform returns
for the first three calls; the later calls' arguments are built from
them exactly as in the source (category first, then the two roles, then
the text channel and voice channel under that category with overwrites
for those two roles). -/
def create_team_calls (team_number : Nat)
    (catId memberRoleId coachRoleId : Nat) : List ProvCall :=
  let category := catId
  let member_role := memberRoleId
  let coach_role := coachRoleId
  let overwrites : Overwrites := { member_role := member_role, coach_role := coach_role }
  [ProvCall.ensureCategory CATEGORY_NAME,
   ProvCall.createRole team_number RoleKind.member,
   ProvCall.createRole team_number RoleKind.coach,
   ProvCall.createTextChannel team_number category overwrites,
   ProvCall.createVoiceChannel team_number category overwrites]

/-! ## Basic lemmas about the registry operations -/

theorem keys_modifyTeam (ts : Registry) (k : TeamId) (f : Team → Team) :
    keys (modifyTeam ts k f) = keys ts := by
  simp only [keys, modifyTeam, List.map_map]
  apply List.map_congr_left
  intro p _
  by_cases h : p.1 = k <;> simp [h]

theorem length_modifyTeam (ts : Registry) (k : TeamId) (f : Team → Team) :
    (modifyTeam ts k f).length = ts.length := by
  simp [modifyTeam]

theorem modifyTeam_eq_of_not_mem {ts : Registry} {k : TeamId} (f : Team → Team)
    (h : k ∉ keys ts) : modifyTeam ts k f = ts := by
  induction ts with
  | nil => rfl
  | cons p ts ih =>
    simp only [keys, List.map_cons, List.mem_cons] at h
    push_neg at h
    simp only [modifyTeam, List.map_cons]
    rw [if_neg (by exact fun hc => h.1 hc.symm)]
    have := ih (by simpa [keys] using h.2)
    simpa [modifyTeam] using this

theorem mem_modifyTeam {ts : Registry} {k : TeamId} {f : Team → Team} {p : TeamId × Team}
    (hp : p ∈ modifyTeam ts k f) :
    ∃ q ∈ ts, p = if q.1 = k then (k, f q.2) else q := by
  simp only [modifyTeam, List.mem_map] at hp
  obtain ⟨q, hq, hqp⟩ := hp
  exact ⟨q, hq, hqp.symm⟩

theorem modifyTeam_cons (p : TeamId × Team) (ts : Registry) (k : TeamId) (f : Team → Team) :
    modifyTeam (p :: ts) k f =
      (if p.1 = k then (k, f p.2) else p) :: modifyTeam ts k f := rfl

theorem lookup_eq_of_mem_nodup {ts : Registry} {k : TeamId} {tm : Team}
    (hnd : (keys ts).Nodup) (h : (k, tm) ∈ ts) : List.lookup k ts = some tm := by
  induction ts with
  | nil => cases h
  | cons p ts ih =>
    simp only [keys, List.map_cons, List.nodup_cons] at hnd
    rcases List.mem_cons.mp h with heq | hmem
    · subst heq; simp [List.lookup]
    · have hk : k ≠ p.1 := by
        intro hkp
        exact hnd.1 (hkp ▸ (List.mem_map.mpr ⟨(k, tm), hmem, rfl⟩))
      have hbeq : (k == p.1) = false := beq_eq_false_iff_ne.mpr hk
      simp only [List.lookup, hbeq]
      exact ih hnd.2 hmem

theorem findUserTeam_eq_none_iff {ts : Registry} {u : UserId} :
    findUserTeam ts u = none ↔ ∀ p ∈ ts, u ∉ p.2.members := by
  simp [findUserTeam, List.find?_eq_none]

theorem findUserTeam_eq_some {ts : Registry} {u : UserId} {t : TeamId}
    (h : findUserTeam ts u = some t) : ∃ tm, (t, tm) ∈ ts ∧ u ∈ tm.members := by
  simp only [findUserTeam, Option.map_eq_some'] at h
  obtain ⟨p, hp, hpt⟩ := h
  have hmem := List.mem_of_find?_eq_some hp
  have hpred := List.find?_some hp
  simp only [decide_eq_true_eq] at hpred
  exact ⟨p.2, by simpa [← hpt] using hmem, hpred⟩

/-! ## Lemmas about `memCount` -/

theorem memCount_nil (v : UserId) : memCount [] v = 0 := rfl

theorem memCount_cons (p : TeamId × Team) (ts : Registry) (v : UserId) :
    memCount (p :: ts) v = p.2.members.count v + memCount ts v := by
  simp [memCount]

theorem memCount_append (ts ts' : Registry) (v : UserId) :
    memCount (ts ++ ts') v = memCount ts v + memCount ts' v := by
  simp [memCount]

theorem memCount_eq_zero_of_absent {ts : Registry} {v : UserId}
    (h : ∀ p ∈ ts, v ∉ p.2.members) : memCount ts v = 0 := by
  induction ts with
  | nil => rfl
  | cons p ts ih =>
    have h1 : p.2.members.count v = 0 :=
      List.count_eq_zero.mpr (h p (List.mem_cons_self p ts))
    have h2 : memCount ts v = 0 := ih (fun q hq => h q (List.mem_cons_of_mem p hq))
    simp [memCount] at h2 ⊢
    exact ⟨h1, h2⟩

theorem memCount_modify_congr {ts : Registry} {k : TeamId} {f : Team → Team} {v : UserId}
    (h : ∀ tm, (f tm).members.count v = tm.members.count v) :
    memCount (modifyTeam ts k f) v = memCount ts v := by
  induction ts with
  | nil => rfl
  | cons p ts ih =>
    rw [modifyTeam_cons, memCount_cons, memCount_cons, ih]
    by_cases hk : p.1 = k
    · rw [if_pos hk]
      simpa using congrArg (· + memCount ts v) (h p.2)
    · rw [if_neg hk]

theorem memCount_modify_le {ts : Registry} {k : TeamId} {f : Team → Team} {v : UserId}
    (h : ∀ tm, (f tm).members.count v ≤ tm.members.count v) :
    memCount (modifyTeam ts k f) v ≤ memCount ts v := by
  induction ts with
  | nil => exact Nat.le_refl _
  | cons p ts ih =>
    rw [modifyTeam_cons, memCount_cons, memCount_cons]
    by_cases hk : p.1 = k
    · rw [if_pos hk]
      exact Nat.add_le_add (h p.2) ih
    · rw [if_neg hk]
      exact Nat.add_le_add (Nat.le_refl _) ih

theorem memCount_modify_append_of_absent {ts : Registry} {k : TeamId} {u : UserId}
    (hnd : (keys ts).Nodup) (h : ∀ p ∈ ts, u ∉ p.2.members) :
    memCount (modifyTeam ts k (fun tm => appendMember tm u)) u ≤ 1 := by
  induction ts with
  | nil => exact Nat.zero_le 1
  | cons p ts ih =>
    simp only [keys, List.map_cons, List.nodup_cons] at hnd
    have hp0 : p.2.members.count u = 0 :=
      List.count_eq_zero.mpr (h p (List.mem_cons_self p ts))
    have htail : ∀ q ∈ ts, u ∉ q.2.members := fun q hq => h q (List.mem_cons_of_mem p hq)
    rw [modifyTeam_cons, memCount_cons]
    by_cases hk : p.1 = k
    · have hknot : k ∉ keys ts := hk ▸ (by simpa [keys] using hnd.1)
      have hrest : modifyTeam ts k (fun tm => appendMember tm u) = ts :=
        modifyTeam_eq_of_not_mem _ hknot
      rw [if_pos hk, hrest, memCount_eq_zero_of_absent htail]
      simp [appendMember, List.count_append, hp0]
    · rw [if_neg hk, hp0]
      simpa using ih hnd.2 htail

/-! ## Lemmas about `findTeamWithCapacity` -/

theorem sortedKeys_sorted (ts : Registry) :
    (sortedKeys ts).Sorted (fun a b => a ≤ b) :=
  List.sorted_insertionSort _ _

theorem sortedKeys_perm (ts : Registry) : List.Perm (sortedKeys ts) (keys ts) :=
  List.perm_insertionSort _ _

theorem mem_sortedKeys {ts : Registry} {k : TeamId} :
    k ∈ sortedKeys ts ↔ k ∈ keys ts :=
  (sortedKeys_perm ts).mem_iff

theorem find?_sorted_min {l : List Nat} (hs : l.Sorted (fun a b => a ≤ b))
    {p : Nat → Bool} {t : Nat} (h : l.find? p = some t) :
    ∀ x ∈ l, p x → t ≤ x := by
  induction l with
  | nil => cases h
  | cons a l ih =>
    rw [List.sorted_cons] at hs
    by_cases hpa : p a
    · rw [List.find?_cons_of_pos _ hpa] at h
      cases h
      intro x hx _
      rcases List.mem_cons.mp hx with rfl | hxl
      · exact Nat.le_refl _
      · exact hs.1 x hxl
    · rw [List.find?_cons_of_neg _ (by simpa using hpa)] at h
      intro x hx hpx
      rcases List.mem_cons.mp hx with rfl | hxl
      · exact absurd hpx hpa
      · exact ih hs.2 h x hxl hpx

theorem findTeamWithCapacity_eq_some {ts : Registry} {sz : Nat} {t : TeamId}
    (h : findTeamWithCapacity ts sz = some t) :
    t ∈ keys ts ∧ rosterLen ts t < sz ∧
      ∀ t' ∈ keys ts, rosterLen ts t' < sz → t ≤ t' := by
  have hmem : t ∈ sortedKeys ts := List.mem_of_find?_eq_some h
  have hpred : rosterLen ts t < sz := by
    have := List.find?_some h
    simpa using this
  refine ⟨mem_sortedKeys.mp hmem, hpred, fun t' ht' hcap => ?_⟩
  exact find?_sorted_min (sortedKeys_sorted ts) h t' (mem_sortedKeys.mpr ht')
    (by simpa using hcap)

theorem findTeamWithCapacity_eq_none_iff {ts : Registry} {sz : Nat} :
    findTeamWithCapacity ts sz = none ↔ ∀ k ∈ keys ts, sz ≤ rosterLen ts k := by
  rw [findTeamWithCapacity, List.find?_eq_none]
  constructor
  · intro h k hk
    have := h k (mem_sortedKeys.mpr hk)
    simpa using this
  · intro h k hk
    have := h k (mem_sortedKeys.mp hk)
    simpa using this

/-! ## Preservation of the registry invariant -/

theorem insertReplace_of_not_mem {ts : Registry} {k : TeamId} (tm : Team)
    (h : k ∉ keys ts) : insertReplace ts k tm = ts ++ [(k, tm)] := by
  simp [insertReplace, h]

theorem range'_one_concat (s n : Nat) :
    List.range' s (n + 1) = List.range' s n ++ [s + n] := by
  have h : List.range' s (n + 1) 1 = List.range' s n 1 ++ [s + 1 * n] :=
    List.range'_concat s n
  simpa using h

theorem count_members_appendMember_ne {tm : Team} {u v : UserId} (h : v ≠ u) :
    (appendMember tm u).members.count v = tm.members.count v := by
  simp [appendMember, List.count_append, List.count_singleton', h]

theorem inv_join {sz : Nat} (hsz : 1 ≤ sz) {ts : Registry} (h : Inv sz ts)
    (u : UserId) (b : Bundle) : Inv sz (join_team ts sz u b) := by
  obtain ⟨hkeys, hcap, huniq⟩ := h
  have hnd : (keys ts).Nodup := hkeys ▸ List.nodup_range' 1 ts.length
  rw [join_team]
  cases hfu : findUserTeam ts u with
  | some t => exact ⟨hkeys, hcap, huniq⟩
  | none =>
    have habs : ∀ p ∈ ts, u ∉ p.2.members := findUserTeam_eq_none_iff.mp hfu
    cases hcapq : findTeamWithCapacity ts sz with
    | some t =>
      obtain ⟨htk, hlen, _⟩ := findTeamWithCapacity_eq_some hcapq
      refine ⟨?_, ?_, ?_⟩
      · rw [keys_modifyTeam, length_modifyTeam]; exact hkeys
      · intro p hp
        obtain ⟨q, hq, hpq⟩ := mem_modifyTeam hp
        by_cases hqk : q.1 = t
        · rw [if_pos hqk] at hpq
          subst hpq
          have hlookup : List.lookup t ts = some q.2 := by
            apply lookup_eq_of_mem_nodup hnd
            have : q = (t, q.2) := by
              rw [← hqk]
            exact this ▸ hq
          have : rosterLen ts t = q.2.members.length := by
            rw [rosterLen, hlookup]
          simp only [appendMember, List.length_append, List.length_singleton]
          omega
        · rw [if_neg hqk] at hpq
          exact hpq ▸ hcap q hq
      · intro v
        by_cases hv : v = u
        · subst hv
          exact memCount_modify_append_of_absent hnd habs
        · rw [memCount_modify_congr (fun tm => count_members_appendMember_ne hv)]
          exact huniq v
    | none =>
      set n := ts.length with hn
      have hfresh : (n + 1) ∉ keys ts := by
        rw [hkeys]
        intro hmem
        have := List.mem_range'_1.mp hmem
        omega
      have hreg : create_team_register ts (n + 1) b = ts ++ [(n + 1, emptyTeam b)] :=
        insertReplace_of_not_mem _ hfresh
      set ts1 : Registry := ts ++ [(n + 1, emptyTeam b)] with hts1
      have hkeys1 : keys ts1 = List.range' 1 (n + 1) := by
        rw [hts1, keys, List.map_append, ← keys, hkeys, range'_one_concat]
        simp [Nat.add_comm]
      have hnd1 : (keys ts1).Nodup := hkeys1 ▸ List.nodup_range' 1 (n + 1)
      have habs1 : ∀ p ∈ ts1, u ∉ p.2.members := by
        intro p hp
        rcases List.mem_append.mp hp with hmem | hmem
        · exact habs p hmem
        · simp only [List.mem_singleton] at hmem
          subst hmem
          simp [emptyTeam]
      simp only [hreg]
      refine ⟨?_, ?_, ?_⟩
      · rw [keys_modifyTeam, length_modifyTeam, hkeys1]
        have hlen1 : ts1.length = n + 1 := by simp [hts1, hn]
        rw [hlen1]
      · intro p hp
        obtain ⟨q, hq, hpq⟩ := mem_modifyTeam hp
        rcases List.mem_append.mp hq with hmem | hmem
        · by_cases hqk : q.1 = n + 1
          · exact absurd (hqk ▸ List.mem_map.mpr ⟨q, hmem, rfl⟩) hfresh
          · rw [if_neg hqk] at hpq
            exact hpq ▸ hcap q hmem
        · simp only [List.mem_singleton] at hmem
          subst hmem
          simp only [if_pos] at hpq
          subst hpq
          simp [appendMember, emptyTeam]
          omega
      · intro v
        by_cases hv : v = u
        · subst hv
          exact memCount_modify_append_of_absent hnd1 habs1
        · rw [memCount_modify_congr (fun tm => count_members_appendMember_ne hv)]
          rw [hts1, memCount_append]
          have : memCount [(n + 1, emptyTeam b)] v = 0 := by
            simp [memCount, emptyTeam]
          rw [this]
          simpa using huniq v

theorem inv_leave {sz : Nat} {ts : Registry} (h : Inv sz ts) (u : UserId) :
    Inv sz (leave_team ts u) := by
  obtain ⟨hkeys, hcap, huniq⟩ := h
  rw [leave_team]
  cases hfu : findUserTeam ts u with
  | none => exact ⟨hkeys, hcap, huniq⟩
  | some t =>
    show Inv sz (if t = 0 then ts else modifyTeam ts t fun tm => removeMember tm u)
    by_cases ht : t = 0
    · rw [if_pos ht]; exact ⟨hkeys, hcap, huniq⟩
    · rw [if_neg ht]
      refine ⟨?_, ?_, ?_⟩
      · rw [keys_modifyTeam, length_modifyTeam]; exact hkeys
      · intro p hp
        obtain ⟨q, hq, hpq⟩ := mem_modifyTeam hp
        by_cases hqk : q.1 = t
        · rw [if_pos hqk] at hpq
          subst hpq
          have : (removeMember q.2 u).members.length ≤ q.2.members.length := by
            simpa [removeMember] using (List.erase_sublist u q.2.members).length_le
          exact Nat.le_trans this (hcap q hq)
        · rw [if_neg hqk] at hpq
          exact hpq ▸ hcap q hq
      · intro v
        refine Nat.le_trans (memCount_modify_le ?_) (huniq v)
        intro tm
        by_cases hv : v = u
        · subst hv
          rw [removeMember]
          simp only [List.count_erase_self]
          omega
        · rw [removeMember]
          simp only [List.count_erase_of_ne hv]
          exact Nat.le_refl _

theorem inv_step {sz : Nat} (hsz : 1 ≤ sz) {ts : Registry} (h : Inv sz ts) (op : Op) :
    Inv sz (step sz ts op) := by
  cases op with
  | join u b => exact inv_join hsz h u b
  | leave u => exact inv_leave h u

theorem inv_nil (sz : Nat) : Inv sz [] := by
  refine ⟨rfl, ?_, ?_⟩ <;> simp [memCount]

theorem inv_run (sz : Nat) (hsz : 1 ≤ sz) (ops : List Op) : Inv sz (run sz ops) := by
  rw [run]
  induction ops using List.reverseRecOn with
  | nil => exact inv_nil sz
  | append_singleton ops op ih =>
    rw [List.foldl_append, List.foldl_cons, List.foldl_nil]
    exact inv_step hsz ih op

/-! ## Further helper lemmas for the claim theorems -/

theorem countP_mem_le_memCount (ts : Registry) (v : UserId) :
    ts.countP (fun p => decide (v ∈ p.2.members)) ≤ memCount ts v := by
  induction ts with
  | nil => exact Nat.le_refl _
  | cons p ts ih =>
    rw [List.countP_cons, memCount_cons]
    by_cases hv : v ∈ p.2.members
    · have h1 : 0 < p.2.members.count v := List.count_pos_iff.mpr hv
      have h2 : (if decide (v ∈ p.2.members) = true then 1 else 0) = 1 := by simp [hv]
      rw [h2]
      omega
    · have h0 : p.2.members.count v = 0 := List.count_eq_zero.mpr hv
      have h2 : (if decide (v ∈ p.2.members) = true then 1 else 0) = 0 := by simp [hv]
      rw [h2, h0]
      omega

theorem count_le_memCount_of_mem {ts : Registry} {p : TeamId × Team} (hp : p ∈ ts)
    (v : UserId) : p.2.members.count v ≤ memCount ts v := by
  induction ts with
  | nil => cases hp
  | cons q ts ih =>
    rw [memCount_cons]
    rcases List.mem_cons.mp hp with rfl | hmem
    · exact Nat.le_add_right _ _
    · exact Nat.le_trans (ih hmem) (Nat.le_add_left _ _)

theorem mem_of_lookup_eq_some {ts : Registry} {k : TeamId} {tm : Team}
    (h : List.lookup k ts = some tm) : (k, tm) ∈ ts := by
  induction ts with
  | nil => cases h
  | cons p ts ih =>
    by_cases hk : k = p.1
    · have hbeq : (k == p.1) = true := beq_iff_eq.mpr hk
      simp only [List.lookup, hbeq] at h
      have htm : p.2 = tm := by simpa using h
      rw [hk, ← htm]
      cases p
      exact List.mem_cons_self _ _
    · have hbeq : (k == p.1) = false := beq_eq_false_iff_ne.mpr hk
      simp only [List.lookup, hbeq] at h
      exact List.mem_cons_of_mem p (ih h)

theorem lookup_isSome_of_mem_keys {ts : Registry} {k : TeamId} (h : k ∈ keys ts) :
    (List.lookup k ts).isSome := by
  induction ts with
  | nil => cases h
  | cons p ts ih =>
    rcases List.mem_cons.mp h with heq | hmem
    · have hbeq : (k == p.1) = true := beq_iff_eq.mpr heq
      simp [List.lookup, hbeq]
    · by_cases hk : k = p.1
      · have hbeq : (k == p.1) = true := beq_iff_eq.mpr hk
        simp [List.lookup, hbeq]
      · have hbeq : (k == p.1) = false := beq_eq_false_iff_ne.mpr hk
        simp only [List.lookup, hbeq]
        exact ih hmem

theorem lookup_modifyTeam_self (ts : Registry) (k : TeamId) (f : Team → Team) :
    List.lookup k (modifyTeam ts k f) = (List.lookup k ts).map f := by
  induction ts with
  | nil => rfl
  | cons p ts ih =>
    rw [modifyTeam_cons]
    by_cases hk : p.1 = k
    · have hbeq : (k == p.1) = true := beq_iff_eq.mpr hk.symm
      rw [if_pos hk]
      simp [List.lookup, hbeq]
    · have hbeq : (k == p.1) = false := beq_eq_false_iff_ne.mpr (fun h => hk h.symm)
      rw [if_neg hk]
      simp only [List.lookup, hbeq]
      exact ih

theorem insertReplace_of_mem {ts : Registry} {k : TeamId} (tm : Team)
    (h : k ∈ keys ts) : insertReplace ts k tm = modifyTeam ts k (fun _ => tm) := by
  rw [insertReplace, if_pos h]
  rfl

/-! ## Lemmas about `insertReplace` and `loadTeams` -/

theorem lookup_modifyTeam_ne {k k' : TeamId} (h : k' ≠ k) (ts : Registry) (f : Team → Team) :
    List.lookup k' (modifyTeam ts k f) = List.lookup k' ts := by
  induction ts with
  | nil => rfl
  | cons p ts ih =>
    rw [modifyTeam_cons]
    by_cases hk : p.1 = k
    · have hb1 : (k' == k) = false := beq_eq_false_iff_ne.mpr h
      have hb2 : (k' == p.1) = false := beq_eq_false_iff_ne.mpr (hk ▸ h)
      rw [if_pos hk]
      simp only [List.lookup, hb1, hb2]
      exact ih
    · rw [if_neg hk]
      by_cases hk' : k' = p.1
      · have hb : (k' == p.1) = true := beq_iff_eq.mpr hk'
        simp [List.lookup, hb]
      · have hb : (k' == p.1) = false := beq_eq_false_iff_ne.mpr hk'
        simp only [List.lookup, hb]
        exact ih

theorem lookup_append_last_self (ts : Registry) (k : TeamId) (tm : Team)
    (h : k ∉ keys ts) : List.lookup k (ts ++ [(k, tm)]) = some tm := by
  induction ts with
  | nil => simp [List.lookup]
  | cons p ts ih =>
    simp only [keys, List.map_cons, List.mem_cons] at h
    push_neg at h
    have hb : (k == p.1) = false := beq_eq_false_iff_ne.mpr h.1
    rw [List.cons_append]
    simp only [List.lookup, hb]
    exact ih (by simpa [keys] using h.2)

theorem lookup_append_last_ne (ts : Registry) {k k' : TeamId} (tm : Team)
    (h : k' ≠ k) : List.lookup k' (ts ++ [(k, tm)]) = List.lookup k' ts := by
  induction ts with
  | nil => simp [List.lookup, beq_eq_false_iff_ne.mpr h]
  | cons p ts ih =>
    rw [List.cons_append]
    by_cases hk' : k' = p.1
    · have hb : (k' == p.1) = true := beq_iff_eq.mpr hk'
      simp [List.lookup, hb]
    · have hb : (k' == p.1) = false := beq_eq_false_iff_ne.mpr hk'
      simp only [List.lookup, hb]
      exact ih

theorem lookup_insertReplace_self (ts : Registry) (k : TeamId) (tm : Team) :
    List.lookup k (insertReplace ts k tm) = some tm := by
  by_cases h : k ∈ keys ts
  · rw [insertReplace_of_mem _ h, lookup_modifyTeam_self]
    obtain ⟨tm', htm'⟩ := Option.isSome_iff_exists.mp (lookup_isSome_of_mem_keys h)
    rw [htm']
    rfl
  · rw [insertReplace_of_not_mem _ h]
    exact lookup_append_last_self ts k tm h

theorem lookup_insertReplace_ne (ts : Registry) {k k' : TeamId} (tm : Team)
    (h : k' ≠ k) : List.lookup k' (insertReplace ts k tm) = List.lookup k' ts := by
  by_cases hm : k ∈ keys ts
  · rw [insertReplace_of_mem _ hm]
    exact lookup_modifyTeam_ne h ts _
  · rw [insertReplace_of_not_mem _ hm]
    exact lookup_append_last_ne ts tm h

theorem mem_keys_insertReplace (ts : Registry) (k k' : TeamId) (tm : Team) :
    k' ∈ keys (insertReplace ts k tm) ↔ k' ∈ keys ts ∨ k' = k := by
  by_cases hm : k ∈ keys ts
  · rw [insertReplace_of_mem _ hm, keys_modifyTeam]
    constructor
    · exact Or.inl
    · rintro (h | rfl)
      · exact h
      · exact hm
  · rw [insertReplace_of_not_mem _ hm, keys, List.map_append]
    simp [keys]

theorem lookup_loadTeams_frozen (roleLive chanLive : Nat → Bool) {k : TeamId}
    (l : List (List Nat × SnapTeam)) (acc : Registry)
    (h : ∀ kv ∈ l, Nat.ofDigits 10 kv.1 ≠ k) :
    List.lookup k (loadTeams roleLive chanLive acc l) = List.lookup k acc := by
  induction l generalizing acc with
  | nil => rfl
  | cons kv rest ih =>
    have hk : Nat.ofDigits 10 kv.1 ≠ k := h kv (List.mem_cons_self kv rest)
    have htail : ∀ kv' ∈ rest, Nat.ofDigits 10 kv'.1 ≠ k :=
      fun kv' h' => h kv' (List.mem_cons_of_mem kv h')
    rw [loadTeams]
    by_cases hres : teamResolves roleLive chanLive kv.2
    · rw [if_pos hres, ih _ htail]
      exact lookup_insertReplace_ne acc _ (fun he => hk he.symm)
    · rw [if_neg hres, ih _ htail]

theorem mem_keys_loadTeams (roleLive chanLive : Nat → Bool) {k : TeamId}
    (l : List (List Nat × SnapTeam)) (acc : Registry) :
    k ∈ keys (loadTeams roleLive chanLive acc l) ↔
      k ∈ keys acc ∨ ∃ kv ∈ l, Nat.ofDigits 10 kv.1 = k ∧
        teamResolves roleLive chanLive kv.2 = true := by
  induction l generalizing acc with
  | nil => simp [loadTeams]
  | cons kv rest ih =>
    rw [loadTeams]
    by_cases hres : teamResolves roleLive chanLive kv.2
    · rw [if_pos hres, ih]
      rw [mem_keys_insertReplace]
      constructor
      · rintro ((h | rfl) | ⟨kv', h1, h2, h3⟩)
        · exact Or.inl h
        · exact Or.inr ⟨kv, List.mem_cons_self _ _, rfl, hres⟩
        · exact Or.inr ⟨kv', List.mem_cons_of_mem _ h1, h2, h3⟩
      · rintro (h | ⟨kv', h1, h2, h3⟩)
        · exact Or.inl (Or.inl h)
        · rcases List.mem_cons.mp h1 with rfl | h1'
          · exact Or.inl (Or.inr h2.symm)
          · exact Or.inr ⟨kv', h1', h2, h3⟩
    · rw [if_neg hres, ih]
      constructor
      · rintro (h | ⟨kv', h1, h2, h3⟩)
        · exact Or.inl h
        · exact Or.inr ⟨kv', List.mem_cons_of_mem _ h1, h2, h3⟩
      · rintro (h | ⟨kv', h1, h2, h3⟩)
        · exact Or.inl h
        · rcases List.mem_cons.mp h1 with rfl | h1'
          · rw [h3] at hres
            exact absurd rfl hres
          · exact Or.inr ⟨kv', h1', h2, h3⟩

theorem lookup_loadTeams_of_mem (roleLive chanLive : Nat → Bool)
    {l : List (List Nat × SnapTeam)} {kv : List Nat × SnapTeam}
    (hkv : kv ∈ l) (hres : teamResolves roleLive chanLive kv.2 = true)
    (hnd : (l.map (fun kv' => Nat.ofDigits 10 kv'.1)).Nodup) (acc : Registry) :
    List.lookup (Nat.ofDigits 10 kv.1) (loadTeams roleLive chanLive acc l) =
      some (restoreTeam kv.2) := by
  induction l generalizing acc with
  | nil => cases hkv
  | cons kv0 rest ih =>
    rw [List.map_cons, List.nodup_cons] at hnd
    rcases List.mem_cons.mp hkv with rfl | hmem
    · rw [loadTeams, if_pos hres]
      have hfrozen : ∀ kv' ∈ rest, Nat.ofDigits 10 kv'.1 ≠ Nat.ofDigits 10 kv.1 := by
        intro kv' h' he
        exact hnd.1 (he ▸ List.mem_map.mpr ⟨kv', h', rfl⟩)
      rw [lookup_loadTeams_frozen _ _ _ _ hfrozen]
      exact lookup_insertReplace_self acc _ _
    · rw [loadTeams]
      by_cases hres0 : teamResolves roleLive chanLive kv0.2
      · rw [if_pos hres0]
        exact ih hmem hnd.2 _
      · rw [if_neg hres0]
        exact ih hmem hnd.2 _

/-- The accumulator form of the save/load round trip: loading the snapshot
of `ts` on top of `acc` appends exactly `ts`, provided every key of `ts` is
fresh in `acc`, keys are unique, and all handles resolve. -/
theorem loadTeams_save (category : Option Nat) (roleLive chanLive : Nat → Bool) :
    ∀ (ts : Registry) (acc : Registry), (keys ts).Nodup →
      (∀ k ∈ keys ts, k ∉ keys acc) →
      (∀ p ∈ ts, roleLive p.2.role = true ∧ roleLive p.2.coach_role = true ∧
        chanLive p.2.text = true ∧ chanLive p.2.voice = true) →
      loadTeams roleLive chanLive acc (save_teams_data ts category).teams = acc ++ ts := by
  intro ts
  induction ts with
  | nil => intro acc _ _ _; simp [save_teams_data, loadTeams]
  | cons p ts ih =>
    intro acc hnd hfresh hlive
    simp only [save_teams_data, List.map_cons] at ih ⊢
    rw [loadTeams]
    have hl := hlive p (List.mem_cons_self p ts)
    have hres : teamResolves roleLive chanLive
        { members := p.2.members, role_id := p.2.role, coach_role_id := p.2.coach_role,
          text_channel_id := p.2.text, voice_channel_id := p.2.voice } = true := by
      simp [teamResolves, hl.1, hl.2.1, hl.2.2.1, hl.2.2.2]
    rw [if_pos hres, Nat.ofDigits_digits]
    have hrt : restoreTeam
        { members := p.2.members, role_id := p.2.role, coach_role_id := p.2.coach_role,
          text_channel_id := p.2.text, voice_channel_id := p.2.voice } = p.2 := rfl
    rw [hrt]
    have hp1 : p.1 ∉ keys acc :=
      hfresh p.1 (by simp [keys])
    rw [insertReplace_of_not_mem _ hp1]
    simp only [keys, List.map_cons, List.nodup_cons] at hnd
    have hfresh' : ∀ k ∈ keys ts, k ∉ keys (acc ++ [(p.1, p.2)]) := by
      intro k hk
      rw [keys, List.map_append]
      intro hmem
      rcases List.mem_append.mp hmem with hmem | hmem
      · exact hfresh k (by simp [keys] at hk ⊢; exact Or.inr hk) hmem
      · simp only [List.map_cons, List.map_nil, List.mem_singleton] at hmem
        exact hnd.1 (hmem ▸ hk)
    have hlive' : ∀ q ∈ ts, roleLive q.2.role = true ∧ roleLive q.2.coach_role = true ∧
        chanLive q.2.text = true ∧ chanLive q.2.voice = true :=
      fun q hq => hlive q (List.mem_cons_of_mem p hq)
    rw [ih (acc ++ [(p.1, p.2)]) hnd.2 hfresh' hlive']
    simp

/-! ## Claim theorems -/

/-- C1: for every sequence of join and leave operations executed sequentially
from the empty registry and every positive `TEAM_SIZE`, every team's roster
length is at most `TEAM_SIZE`.  Every intermediate state of a sequence is the
final state of one of its prefixes, so quantifying over all sequences covers
"at all times". -/
theorem capacity_never_exceeded (sz : Nat) (ops : List Op) (hsz : 1 ≤ sz) :
    ∀ p ∈ run sz ops, p.2.members.length ≤ sz :=
  (inv_run sz hsz ops).2.1

theorem capacity_never_exceeded_witness :
    1 ≤ 2 ∧
      ((1 : TeamId), Team.mk [4] 100 101 102 103) ∈
        run 2 [Op.join 4 (Bundle.mk 100 101 102 103)] ∧
      (Team.mk [4] 100 101 102 103).members.length ≤ 2 :=
  ⟨by decide, by decide,
    capacity_never_exceeded 2 [Op.join 4 (Bundle.mk 100 101 102 103)] (by decide)
      ((1 : TeamId), Team.mk [4] 100 101 102 103) (by decide)⟩

/-- C2: for every sequence of join and leave operations executed sequentially
from the empty registry, every user appears in at most one team's roster
(first conjunct: at most one registry entry whose roster contains the user)
and at most once within any single roster (second conjunct).  `join` first
scans all rosters and rejects without mutation when the user is present
anywhere, which is what maintains this; intermediate states are covered by
prefixes as in C1. -/
theorem user_in_at_most_one_team (sz : Nat) (ops : List Op) (hsz : 1 ≤ sz)
    (v : UserId) :
    (run sz ops).countP (fun p => decide (v ∈ p.2.members)) ≤ 1 ∧
      ∀ p ∈ run sz ops, p.2.members.count v ≤ 1 := by
  have huniq := (inv_run sz hsz ops).2.2 v
  exact ⟨Nat.le_trans (countP_mem_le_memCount _ v) huniq,
    fun p hp => Nat.le_trans (count_le_memCount_of_mem hp v) huniq⟩

theorem user_in_at_most_one_team_witness :
    1 ≤ 2 ∧
      (run 2 [Op.join 4 (Bundle.mk 100 101 102 103),
              Op.join 5 (Bundle.mk 100 101 102 103),
              Op.join 4 (Bundle.mk 200 201 202 203)]).countP
        (fun p => decide ((4 : UserId) ∈ p.2.members)) ≤ 1 :=
  ⟨by decide,
    (user_in_at_most_one_team 2
      [Op.join 4 (Bundle.mk 100 101 102 103),
       Op.join 5 (Bundle.mk 100 101 102 103),
       Op.join 4 (Bundle.mk 200 201 202 203)] (by decide) 4).1⟩

/-- C5: the capacity query of the Join handler scans `sorted(teams.keys())`
and returns the team with the lowest identifier whose roster length is
strictly below `TEAM_SIZE`; it returns `none` exactly when the registry is
empty or every roster is at least `TEAM_SIZE` long.  The nodup hypothesis is
the key-uniqueness a Python dict guarantees. -/
theorem findTeamWithCapacity_correct (ts : Registry) (sz : Nat)
    (hnd : (keys ts).Nodup) :
    (∀ t, findTeamWithCapacity ts sz = some t →
        t ∈ keys ts ∧ rosterLen ts t < sz ∧
          ∀ t' ∈ keys ts, rosterLen ts t' < sz → t ≤ t') ∧
    (findTeamWithCapacity ts sz = none ↔
        ts = [] ∨ ∀ p ∈ ts, sz ≤ p.2.members.length) := by
  constructor
  · intro t ht
    exact findTeamWithCapacity_eq_some ht
  · rw [findTeamWithCapacity_eq_none_iff]
    constructor
    · intro h
      refine Or.inr (fun p hp => ?_)
      have hk : p.1 ∈ keys ts := List.mem_map.mpr ⟨p, hp, rfl⟩
      have hle := h p.1 hk
      have hl : List.lookup p.1 ts = some p.2 := lookup_eq_of_mem_nodup hnd hp
      rwa [rosterLen, hl] at hle
    · rintro (rfl | h) k hk
      · cases hk
      · have hsome := lookup_isSome_of_mem_keys hk
        obtain ⟨tm, htm⟩ := Option.isSome_iff_exists.mp hsome
        have hmem := mem_of_lookup_eq_some htm
        rw [rosterLen, htm]
        exact h (k, tm) hmem

theorem findTeamWithCapacity_correct_witness :
    (keys [((2 : TeamId), Team.mk [9] 0 0 0 0), (1, Team.mk [] 0 0 0 0)]).Nodup ∧
      (1 : TeamId) ∈ keys [((2 : TeamId), Team.mk [9] 0 0 0 0), (1, Team.mk [] 0 0 0 0)] ∧
      rosterLen [((2 : TeamId), Team.mk [9] 0 0 0 0), (1, Team.mk [] 0 0 0 0)] 1 < 1 := by
  have h := (findTeamWithCapacity_correct
      [((2 : TeamId), Team.mk [9] 0 0 0 0), (1, Team.mk [] 0 0 0 0)] 1 (by decide)).1
    1 (by decide)
  exact ⟨by decide, h.1, h.2.1⟩

/-- C3 counterexample: the claim "if any step of the join protocol fails, the
registry is exactly as it was before the join" is false on the code.  With
one team of capacity 2 holding user 5, user 6 joins and the role assignment
(`await user.add_roles`, line 199) raises: the handler reports an error, yet
the roster append of line 197 has already happened and stays. -/
theorem join_failure_can_leave_mutation :
    (join_team_button [((1 : TeamId), Team.mk [5] 90 91 92 93)] 2 6
        (Bundle.mk 100 101 102 103)
        (fun c => match c with | JoinCall.assignRole => true | _ => false)).2 =
      JoinOutcome.errored ∧
    (join_team_button [((1 : TeamId), Team.mk [5] 90 91 92 93)] 2 6
        (Bundle.mk 100 101 102 103)
        (fun c => match c with | JoinCall.assignRole => true | _ => false)).1 ≠
      [((1 : TeamId), Team.mk [5] 90 91 92 93)] := by decide

/-- C3 (amended): if the join fails during a workspace-provisioning step of
team creation (category, member role, coach role, text channel, voice
channel — all of which precede the registration at line 299), the handler
reports an error and the registry is exactly as before: no partial team is
registered and no roster changed.  Failures at the later steps (welcome
message, role assignment, reply) instead leave the registration or append in
place, which is what refutes the unamended claim. -/
theorem provisioning_failure_leaves_registry_unchanged (ts : Registry) (sz : Nat)
    (u : UserId) (b : Bundle) (fails : JoinCall → Bool)
    (hw : fails JoinCall.welcomeMessage = false)
    (ha : fails JoinCall.assignRole = false)
    (hr : fails JoinCall.replyMessage = false)
    (he : (join_team_button ts sz u b fails).2 = JoinOutcome.errored) :
    (join_team_button ts sz u b fails).1 = ts := by
  rw [join_team_button] at he ⊢
  cases hfu : findUserTeam ts u with
  | some t => simp [hfu] at he
  | none =>
    cases hcap : findTeamWithCapacity ts sz with
    | some t =>
      simp [hfu, hcap, ha, hr] at he
    | none =>
      by_cases h1 : fails JoinCall.ensureCategory
      · simp [hfu, hcap, h1]
      · by_cases h2 : fails JoinCall.createMemberRole
        · simp [hfu, hcap, h1, h2]
        · by_cases h3 : fails JoinCall.createCoachRole
          · simp [hfu, hcap, h1, h2, h3]
          · by_cases h4 : fails JoinCall.createTextChannel
            · simp [hfu, hcap, h1, h2, h3, h4]
            · by_cases h5 : fails JoinCall.createVoiceChannel
              · simp [hfu, hcap, h1, h2, h3, h4, h5]
              · simp [hfu, hcap, h1, h2, h3, h4, h5, hw, ha, hr] at he

theorem provisioning_failure_leaves_registry_unchanged_witness :
    ((fun c => match c with | JoinCall.ensureCategory => true | _ => false)
        JoinCall.welcomeMessage = false) ∧
    ((join_team_button [] 1 7 (Bundle.mk 100 101 102 103)
        (fun c => match c with | JoinCall.ensureCategory => true | _ => false)).2 =
      JoinOutcome.errored) ∧
    ((join_team_button [] 1 7 (Bundle.mk 100 101 102 103)
        (fun c => match c with | JoinCall.ensureCategory => true | _ => false)).1 = []) :=
  ⟨by decide, by decide,
    provisioning_failure_leaves_registry_unchanged [] 1 7 (Bundle.mk 100 101 102 103)
      (fun c => match c with | JoinCall.ensureCategory => true | _ => false)
      (by decide) (by decide) (by decide) (by decide)⟩

/-- C4: the claim says the whole join protocol runs under mutual exclusion,
so two concurrent joins can never both allocate the same new team id.  The
handler takes no lock, and `create_team` suspends between the id computation
and the registration, so the event loop can interleave two Join presses.
Failing input: capacity 1, team 1 full with user 1; users 2 and 3 press Join
concurrently; schedule `[0, 1, 0, 0, 1, 1]` (task 1 runs its decision while
task 0 is suspended in provisioning).  Both decisions pick id `2 = len+1`,
task 1's registration overwrites task 0's, both report "joined Team 2", and
user 2 ends up in no roster at all. -/
theorem concurrent_joins_collide :
    runSchedule 1
        { reg := [((1 : TeamId), Team.mk [1] 90 91 92 93)],
          tasks := [JoinTask.mk 2 (Bundle.mk 100 101 102 103) JoinPhase.start,
                    JoinTask.mk 3 (Bundle.mk 200 201 202 203) JoinPhase.start] }
        [0, 1, 0, 0, 1, 1] =
      { reg := [((1 : TeamId), Team.mk [1] 90 91 92 93),
                ((2 : TeamId), Team.mk [3] 200 201 202 203)],
        tasks := [JoinTask.mk 2 (Bundle.mk 100 101 102 103)
                    (JoinPhase.done (JoinOutcome.joined 2)),
                  JoinTask.mk 3 (Bundle.mk 200 201 202 203)
                    (JoinPhase.done (JoinOutcome.joined 2))] } ∧
    memCount (runSchedule 1
        { reg := [((1 : TeamId), Team.mk [1] 90 91 92 93)],
          tasks := [JoinTask.mk 2 (Bundle.mk 100 101 102 103) JoinPhase.start,
                    JoinTask.mk 3 (Bundle.mk 200 201 202 203) JoinPhase.start] }
        [0, 1, 0, 0, 1, 1]).reg 2 = 0 := by decide

/-- C6 counterexample: `create_team` never fails with `DuplicateTeamId`; its
registration step is a plain dict assignment, so creating a team with an
identifier already present silently overwrites the existing team — the
roster `[7]` is reset to `[]` and all four handles are replaced. -/
theorem create_team_overwrites_duplicate_id :
    create_team_register [((1 : TeamId), Team.mk [7] 90 91 92 93)] 1
        (Bundle.mk 100 101 102 103) =
      [((1 : TeamId), Team.mk [] 100 101 102 103)] ∧
    create_team_register [((1 : TeamId), Team.mk [7] 90 91 92 93)] 1
        (Bundle.mk 100 101 102 103) ≠
      [((1 : TeamId), Team.mk [7] 90 91 92 93)] := by decide

/-- C6 (amended): registering a team under an identifier already present
does not fail — it overwrites that entry with an empty roster and the new
handles (keys unchanged).  In actual executions from the empty registry the
id `len(teams) + 1` the Join handler passes is always absent (team numbers
are exactly `1..n`), so the overwriting branch is never reached by the
bot's own protocol. -/
theorem create_team_register_overwrite_and_freshness :
    (∀ (ts : Registry) (tid : TeamId) (b : Bundle), tid ∈ keys ts →
        keys (create_team_register ts tid b) = keys ts ∧
        List.lookup tid (create_team_register ts tid b) = some (emptyTeam b)) ∧
    (∀ (sz : Nat) (ops : List Op), 1 ≤ sz →
        ((run sz ops).length + 1) ∉ keys (run sz ops)) := by
  constructor
  · intro ts tid b hid
    rw [create_team_register, insertReplace_of_mem _ hid]
    refine ⟨keys_modifyTeam _ _ _, ?_⟩
    rw [lookup_modifyTeam_self]
    obtain ⟨tm, htm⟩ := Option.isSome_iff_exists.mp (lookup_isSome_of_mem_keys hid)
    rw [htm]
    rfl
  · intro sz ops hsz
    have hkeys := (inv_run sz hsz ops).1
    rw [hkeys]
    intro hmem
    have := List.mem_range'_1.mp hmem
    omega

theorem create_team_register_overwrite_and_freshness_witness :
    (1 : TeamId) ∈ keys [((1 : TeamId), Team.mk [7] 90 91 92 93)] ∧
    List.lookup 1 (create_team_register [((1 : TeamId), Team.mk [7] 90 91 92 93)] 1
        (Bundle.mk 100 101 102 103)) = some (emptyTeam (Bundle.mk 100 101 102 103)) := by
  have h := create_team_register_overwrite_and_freshness.1
    [((1 : TeamId), Team.mk [7] 90 91 92 93)] 1 (Bundle.mk 100 101 102 103) (by decide)
  exact ⟨by decide, h.2⟩

/-- C7: saving a snapshot and loading it into a fresh empty registry yields
a registry with the same integer team identifiers (decimal string keys
parsed back), the same rosters in the same order, and the same four
resource-handle identifiers per team, provided every saved handle still
resolves to a live platform resource.  The nodup hypothesis is the key
uniqueness of the Python dict being saved. -/
theorem snapshot_round_trip (ts : Registry) (category : Option Nat)
    (roleLive chanLive : Nat → Bool) (hnd : (keys ts).Nodup)
    (hlive : ∀ p ∈ ts, roleLive p.2.role = true ∧ roleLive p.2.coach_role = true ∧
      chanLive p.2.text = true ∧ chanLive p.2.voice = true) :
    load_teams_data (save_teams_data ts category) roleLive chanLive = ts := by
  rw [load_teams_data]
  have h := loadTeams_save category roleLive chanLive ts []
    hnd (fun k _ => by simp [keys]) hlive
  simpa using h

theorem snapshot_round_trip_witness :
    (keys [((1 : TeamId), Team.mk [4, 5] 10 11 12 13),
           (2, Team.mk [6] 20 21 22 23)]).Nodup ∧
    load_teams_data
        (save_teams_data [((1 : TeamId), Team.mk [4, 5] 10 11 12 13),
                          (2, Team.mk [6] 20 21 22 23)] (some 99))
        (fun _ => true) (fun _ => true) =
      [((1 : TeamId), Team.mk [4, 5] 10 11 12 13), (2, Team.mk [6] 20 21 22 23)] :=
  ⟨by decide,
    snapshot_round_trip
      [((1 : TeamId), Team.mk [4, 5] 10 11 12 13), (2, Team.mk [6] 20 21 22 23)]
      (some 99) (fun _ => true) (fun _ => true) (by decide) (by decide)⟩

/-- C8: during restore, a snapshot entry any of whose four handles no
longer resolves is dropped entirely from the restored registry (its parsed
team id is not even a key), while an entry whose four handles all resolve
is restored whole — roster and all four identifiers.  The nodup hypothesis
says the parsed keys are pairwise distinct, as they are for any snapshot
produced by `json.dump` of an int-keyed dict. -/
theorem restore_drops_unresolvable_teams (s : Snapshot)
    (roleLive chanLive : Nat → Bool)
    (hnd : (s.teams.map (fun kv => Nat.ofDigits 10 kv.1)).Nodup) :
    ∀ kv ∈ s.teams,
      (teamResolves roleLive chanLive kv.2 = true →
        List.lookup (Nat.ofDigits 10 kv.1) (load_teams_data s roleLive chanLive) =
          some (restoreTeam kv.2)) ∧
      (teamResolves roleLive chanLive kv.2 = false →
        Nat.ofDigits 10 kv.1 ∉ keys (load_teams_data s roleLive chanLive)) := by
  intro kv hkv
  constructor
  · intro hres
    rw [load_teams_data]
    exact lookup_loadTeams_of_mem roleLive chanLive hkv hres hnd []
  · intro hres hmem
    rw [load_teams_data] at hmem
    rcases (mem_keys_loadTeams roleLive chanLive s.teams []).mp hmem with h | ⟨kv', h1, h2, h3⟩
    · simp [keys] at h
    · have heq : kv' = kv := List.inj_on_of_nodup_map hnd h1 hkv h2
      rw [heq, hres] at h3
      cases h3

theorem restore_drops_unresolvable_teams_witness :
    (([([1], SnapTeam.mk [4] 10 11 12 13),
       ([2], SnapTeam.mk [5] 20 0 22 23)]).map
        (fun kv => Nat.ofDigits 10 kv.1)).Nodup ∧
    List.lookup (Nat.ofDigits 10 [1])
        (load_teams_data
          { teams := [([1], SnapTeam.mk [4] 10 11 12 13),
                      ([2], SnapTeam.mk [5] 20 0 22 23)], category_id := none }
          (fun n => !(n == 0)) (fun _ => true)) =
      some (restoreTeam (SnapTeam.mk [4] 10 11 12 13)) ∧
    Nat.ofDigits 10 [2] ∉
      keys (load_teams_data
          { teams := [([1], SnapTeam.mk [4] 10 11 12 13),
                      ([2], SnapTeam.mk [5] 20 0 22 23)], category_id := none }
          (fun n => !(n == 0)) (fun _ => true)) :=
  ⟨by decide,
    (restore_drops_unresolvable_teams
        { teams := [([1], SnapTeam.mk [4] 10 11 12 13),
                    ([2], SnapTeam.mk [5] 20 0 22 23)], category_id := none }
        (fun n => !(n == 0)) (fun _ => true) (by decide)
        ([1], SnapTeam.mk [4] 10 11 12 13) (by decide)).1 (by decide),
    (restore_drops_unresolvable_teams
        { teams := [([1], SnapTeam.mk [4] 10 11 12 13),
                    ([2], SnapTeam.mk [5] 20 0 22 23)], category_id := none }
        (fun n => !(n == 0)) (fun _ => true) (by decide)
        ([2], SnapTeam.mk [5] 20 0 22 23) (by decide)).2 (by decide)⟩

/-- C10: the loader copies each restored team's member list verbatim with
no validation against the registry invariants.  Concretely, with
`TEAM_SIZE = 2` and every handle resolving, this snapshot restores a
roster of length 3 (exceeding capacity) and puts user 10 into the rosters
of both team 1 and team 2 (`memCount` 2, violating one-team-per-user) —
the invariants are only maintained by join/leave, never re-established on
restore. -/
theorem load_copies_rosters_verbatim :
    load_teams_data
        { teams := [([1], SnapTeam.mk [10, 11, 12] 1 2 3 4),
                    ([2], SnapTeam.mk [10] 5 6 7 8)], category_id := some 9 }
        (fun _ => true) (fun _ => true) =
      [((1 : TeamId), Team.mk [10, 11, 12] 1 2 3 4),
       ((2 : TeamId), Team.mk [10] 5 6 7 8)] ∧
    2 < (Team.mk [10, 11, 12] 1 2 3 4).members.length ∧
    memCount [((1 : TeamId), Team.mk [10, 11, 12] 1 2 3 4),
              ((2 : TeamId), Team.mk [10] 5 6 7 8)] 10 = 2 := by decide

/-- C9: for every team number and whatever handles the platform returns,
`create_team` issues exactly five provisioning calls in the order: ensure
the category, create the member role, create the coach role, create the
text channel, create the voice channel; and both channel calls are placed
under the returned category with permission overwrites naming exactly the
member-role and coach-role handles returned by the two role-creation
calls. -/
theorem create_team_provisioning_order (team catId memberRoleId coachRoleId : Nat) :
    (create_team_calls team catId memberRoleId coachRoleId).length = 5 ∧
    (create_team_calls team catId memberRoleId coachRoleId).get? 0 =
      some (ProvCall.ensureCategory CATEGORY_NAME) ∧
    (create_team_calls team catId memberRoleId coachRoleId).get? 1 =
      some (ProvCall.createRole team RoleKind.member) ∧
    (create_team_calls team catId memberRoleId coachRoleId).get? 2 =
      some (ProvCall.createRole team RoleKind.coach) ∧
    (create_team_calls team catId memberRoleId coachRoleId).get? 3 =
      some (ProvCall.createTextChannel team catId
        (Overwrites.mk memberRoleId coachRoleId)) ∧
    (create_team_calls team catId memberRoleId coachRoleId).get? 4 =
      some (ProvCall.createVoiceChannel team catId
        (Overwrites.mk memberRoleId coachRoleId)) :=
  ⟨rfl, rfl, rfl, rfl, rfl, rfl⟩

end TeamBot
